import Mathlib

/-!
# Verification of the lesson-admin validation-criteria form controller

Shallow embedding of `src/app/template/admin_lesson_script.js`: the Field
Renderer (`handleValidationChange`), and the Criteria Codec
(`buildValidationCriteria` / `populateValidationFields`).

The DOM container of validation fields is modelled as a list of fields
(id/value pairs); the type selector is a string.  The CodeMirror bootstrap
for the two unrelated textareas is incidental UI setup and is not part of
the embedded core.

The JavaScript standard-library functions `JSON.parse` / `JSON.stringify`
(external to the repository) are modelled over a JSON value type `JVal`
with integer numbers (no floats/exponents), Unicode-scalar strings, arrays
and insertion-ordered objects.  The serializer escapes only `"` and `\`
(real `JSON.stringify` additionally escapes control characters; this does
not affect parse-of-stringify round trips).  The parser accepts what the
serializer emits, with JSON whitespace allowed between tokens, and rejects
trailing garbage, like `JSON.parse`.
-/

/-- Model of a JavaScript JSON value (numbers restricted to integers). -/
inductive JVal where
  | null : JVal
  | bool : Bool → JVal
  | num : Int → JVal
  | str : String → JVal
  | arr : List JVal → JVal
  | obj : List (String × JVal) → JVal

/-- JSON whitespace characters. -/
def isWs (c : Char) : Bool :=
  c = ' ' || c = '\t' || c = '\n' || c = '\r'

/-- Decimal digit characters. -/
def isDig (c : Char) : Bool :=
  '0' ≤ c && c ≤ '9'

/-- The character for a decimal digit value. -/
def digitCh (d : Nat) : Char :=
  Char.ofNat (48 + d)

/-- Fuel-indexed decimal digit extraction, most significant digit first. -/
def natCharsAux : Nat → Nat → List Char
  | 0, _ => []
  | fuel + 1, n =>
    if n < 10 then [digitCh n]
    else natCharsAux fuel (n / 10) ++ [digitCh (n % 10)]

/-- Decimal digit characters of a natural number, most significant first. -/
def natChars (n : Nat) : List Char :=
  natCharsAux (n + 1) n

/-- Decimal characters of an integer (minus sign for negatives). -/
def intChars (n : Int) : List Char :=
  if n < 0 then '-' :: natChars n.natAbs else natChars n.toNat

/-- JSON escape of one string character (quote and backslash only). -/
def escChar (c : Char) : List Char :=
  if c = '"' then ['\\', '"']
  else if c = '\\' then ['\\', '\\']
  else [c]

/-- JSON escape of a raw character sequence. -/
def escStr : List Char → List Char
  | [] => []
  | c :: cs => escChar c ++ escStr cs

/-- A JSON string literal: opening quote, escaped body, closing quote. -/
def strLit (s : String) : List Char :=
  '"' :: (escStr s.data ++ ['"'])

mutual

/-- Model of `JSON.stringify` (character-list form). -/
def stringifyV : JVal → List Char
  | JVal.null => ['n', 'u', 'l', 'l']
  | JVal.bool true => ['t', 'r', 'u', 'e']
  | JVal.bool false => ['f', 'a', 'l', 's', 'e']
  | JVal.num n => intChars n
  | JVal.str s => strLit s
  | JVal.arr [] => ['[', ']']
  | JVal.arr (v :: vs) => '[' :: (stringifyV v ++ stringifyElems vs ++ [']'])
  | JVal.obj [] => ['\x7b', '\x7d']
  | JVal.obj (m :: ms) =>
      '\x7b' :: (strLit m.1 ++ ':' :: stringifyV m.2 ++ stringifyMembers ms ++ ['\x7d'])

/-- Comma-separated serialization of the tail elements of an array. -/
def stringifyElems : List JVal → List Char
  | [] => []
  | v :: vs => ',' :: (stringifyV v ++ stringifyElems vs)

/-- Comma-separated serialization of the tail members of an object. -/
def stringifyMembers : List (String × JVal) → List Char
  | [] => []
  | m :: ms => ',' :: (strLit m.1 ++ ':' :: stringifyV m.2 ++ stringifyMembers ms)

end

/-- Model of the JavaScript `JSON.stringify` library function. -/
def Json.stringify (v : JVal) : String :=
  String.mk (stringifyV v)

/-- Skip JSON whitespace. -/
def skipWs : List Char → List Char
  | [] => []
  | c :: cs => if isWs c then skipWs cs else c :: cs

/-- Consume an expected literal character sequence. -/
def expectPfx : List Char → List Char → Option (List Char)
  | [], cs => some cs
  | _ :: _, [] => none
  | p :: ps, c :: cs => if c = p then expectPfx ps cs else none

/-- Split off a maximal run of leading decimal digits. -/
def takeDigits : List Char → List Char × List Char
  | [] => ([], [])
  | c :: cs =>
    if isDig c then
      let r := takeDigits cs
      (c :: r.1, r.2)
    else ([], c :: cs)

/-- Numeric value of a run of decimal digit characters. -/
def digitsVal (ds : List Char) : Nat :=
  ds.foldl (fun a c => 10 * a + (c.toNat - 48)) 0

/-- Unescape one JSON string escape character. -/
def escAns (c : Char) : Option Char :=
  if c = '"' then some '"'
  else if c = '\\' then some '\\'
  else if c = '/' then some '/'
  else if c = 'n' then some '\n'
  else if c = 't' then some '\t'
  else if c = 'r' then some '\r'
  else if c = 'b' then some '\x08'
  else if c = 'f' then some '\x0c'
  else none

/-- Parse the body of a JSON string literal after the opening quote;
returns the raw characters and the remaining input after the closing
quote. -/
def parseStrChars : List Char → Option (List Char × List Char)
  | [] => none
  | c :: cs =>
    if c = '"' then some ([], cs)
    else if c = '\\' then
      match cs with
      | [] => none
      | e :: cs2 =>
        match escAns e with
        | none => none
        | some u => (parseStrChars cs2).map (fun p => (u :: p.1, p.2))
    else (parseStrChars cs).map (fun p => (c :: p.1, p.2))

mutual

/-- Fuel-indexed JSON value parser: returns the value and remaining input. -/
def parseVal : Nat → List Char → Option (JVal × List Char)
  | 0, _ => none
  | fuel + 1, cs =>
    match skipWs cs with
    | [] => none
    | c :: cs1 =>
      if c = 'n' then (expectPfx ['u', 'l', 'l'] cs1).map (fun r => (JVal.null, r))
      else if c = 't' then (expectPfx ['r', 'u', 'e'] cs1).map (fun r => (JVal.bool true, r))
      else if c = 'f' then (expectPfx ['a', 'l', 's', 'e'] cs1).map (fun r => (JVal.bool false, r))
      else if c = '"' then (parseStrChars cs1).map (fun p => (JVal.str (String.mk p.1), p.2))
      else if c = '-' then
        let p := takeDigits cs1
        if p.1 = [] then none else some (JVal.num (-(digitsVal p.1 : Int)), p.2)
      else if isDig c then
        let p := takeDigits (c :: cs1)
        some (JVal.num (digitsVal p.1 : Int), p.2)
      else if c = '[' then
        match skipWs cs1 with
        | [] => none
        | c2 :: cs2 =>
          if c2 = ']' then some (JVal.arr [], cs2)
          else (parseElems fuel (c2 :: cs2)).map (fun p => (JVal.arr p.1, p.2))
      else if c = '\x7b' then
        match skipWs cs1 with
        | [] => none
        | c2 :: cs2 =>
          if c2 = '\x7d' then some (JVal.obj [], cs2)
          else (parseMembers fuel (c2 :: cs2)).map (fun p => (JVal.obj p.1, p.2))
      else none

/-- Parse a nonempty comma-separated element list up to the closing `]`. -/
def parseElems : Nat → List Char → Option (List JVal × List Char)
  | 0, _ => none
  | fuel + 1, cs =>
    match parseVal fuel cs with
    | none => none
    | some (v, r) =>
      match skipWs r with
      | [] => none
      | c :: r1 =>
        if c = ',' then (parseElems fuel r1).map (fun p => (v :: p.1, p.2))
        else if c = ']' then some ([v], r1)
        else none

/-- Parse a nonempty comma-separated member list up to the closing brace. -/
def parseMembers : Nat → List Char → Option (List (String × JVal) × List Char)
  | 0, _ => none
  | fuel + 1, cs =>
    match skipWs cs with
    | [] => none
    | c :: cs1 =>
      if c = '"' then
        match parseStrChars cs1 with
        | none => none
        | some (k, r) =>
          match skipWs r with
          | [] => none
          | c2 :: r1 =>
            if c2 = ':' then
              match parseVal fuel r1 with
              | none => none
              | some (v, r2) =>
                match skipWs r2 with
                | [] => none
                | c3 :: r3 =>
                  if c3 = ',' then
                    (parseMembers fuel r3).map (fun p => ((String.mk k, v) :: p.1, p.2))
                  else if c3 = '\x7d' then some ([(String.mk k, v)], r3)
                  else none
            else none
      else none

end

/-- Model of the JavaScript `JSON.parse` library function: parse one JSON
value, allowing surrounding whitespace, rejecting trailing garbage.
Failure (an exception in JavaScript) is `none`. -/
def Json.parse (s : String) : Option JVal :=
  match parseVal (s.data.length + 1) s.data with
  | some (v, r) => if skipWs r = [] then some v else none
  | none => none

example : Json.parse "[2, 3]" = some (JVal.arr [JVal.num 2, JVal.num 3]) := by rfl
example : Json.parse "5" = some (JVal.num 5) := by rfl
example : Json.parse "not json" = none := by rfl
example : Json.parse "" = none := by rfl
example : Json.parse "ok" = none := by rfl
example : Json.stringify (JVal.arr [JVal.num 1]) = "[1]" := by rfl
example : Json.parse "\x7b\"a\": [null, -3, \"x\"]\x7d" =
    some (JVal.obj [("a", JVal.arr [JVal.null, JVal.num (-3), JVal.str "x"])]) := by rfl

/-!
## DOM and form model

The validation-fields container (`#validation-fields`) is a list of input
fields, each an id/value pair; the type selector (`#validationType`) is a
string value.  `document.getElementById(...)` on a field id is lookup in
the container list; the optional-chaining reads (`?.value || dflt`) and the
guarded writes (`if (el) el.value = ...`) of the source become lookup with
a default and update-if-present.
-/

/-- One form input inside the validation-fields container. -/
structure FormField where
  id : String
  value : String
deriving DecidableEq

/-- The form state the controller manipulates: the type selector's current
value and the contents of the validation-fields container. -/
structure DomState where
  validationType : String
  fields : List FormField
deriving DecidableEq

/-- Model of `document.getElementById(fid)?.value`: the value of the field with the
given id, `none` when no such field exists. -/
def getFieldValue (s : DomState) (fid : String) : Option String :=
  (s.fields.find? (fun f => f.id == fid)).map FormField.value

/-- Model of `if (document.getElementById(fid)) document.getElementById(fid).value = v`:
update the field with the given id when present, otherwise do nothing. -/
def setFieldValue (s : DomState) (fid v : String) : DomState :=
  { s with fields := s.fields.map (fun f => if f.id == fid then { f with value := v } else f) }

/-- JavaScript `a || b` on an optionally missing string: the default is used
when the string is absent (`undefined`) or empty (falsy). -/
def jsOrStr (o : Option String) (dflt : String) : String :=
  match o with
  | none => dflt
  | some s => if s = "" then dflt else s

/-- The field installed by `fieldTemplates.expected` (fresh inputs have
empty value). -/
def expectedTemplate : List FormField :=
  [⟨"expectedOutput", ""⟩]

/-- The fields installed by `fieldTemplates.function_call`. -/
def functionCallTemplate : List FormField :=
  [⟨"functionName", ""⟩, ⟨"functionArgs", ""⟩, ⟨"expectedOutput", ""⟩]

/-- The Field Renderer `handleValidationChange`: clears the container
(`innerHTML = ""`), then installs the template selected by the current
value of the type selector; unrecognized types leave the container empty. -/
def handleValidationChange (s : DomState) : DomState :=
  if s.validationType = "exact_match" ∨ s.validationType = "contains" then
    { s with fields := expectedTemplate }
  else if s.validationType = "function_call" then
    { s with fields := functionCallTemplate }
  else
    { s with fields := [] }

/-!
## Criteria objects and the Codec
-/

/-- A criteria object, the JavaScript object built by
`buildValidationCriteria` and consumed by `populateValidationFields`.
JavaScript objects are dynamic, so each field is optional (`none` models an
absent/`undefined` property); `function_name` is kept as a string, the
shape all code paths of the source produce and read. -/
structure Criteria where
  type : Option String := none
  function_name : Option String := none
  args : Option JVal := none
  expected : Option JVal := none

/-- JavaScript truthiness of a JSON value. -/
def jsTruthy : JVal → Bool
  | JVal.null => false
  | JVal.bool b => b
  | JVal.num n => n != 0
  | JVal.str s => s != ""
  | JVal.arr _ => true
  | JVal.obj _ => true

/-- JavaScript `ToString` of a JSON value, as the DOM applies it when a
non-string is assigned to an input's `value` (arrays join their elements
with commas, `null` elements become empty, objects print as
`[object Object]`). -/
def jsToDOMString : JVal → String
  | JVal.null => "null"
  | JVal.bool true => "true"
  | JVal.bool false => "false"
  | JVal.num n => String.mk (intChars n)
  | JVal.str s => s
  | JVal.arr [] => ""
  | JVal.arr [v] => (match v with | JVal.null => "" | w => jsToDOMString w)
  | JVal.arr (v :: v2 :: vs) =>
      (match v with | JVal.null => "" | w => jsToDOMString w) ++ "," ++
        jsToDOMString (JVal.arr (v2 :: vs))
  | JVal.obj _ => "[object Object]"

/-- The user-facing notification text of `buildValidationCriteria`. -/
def invalidArgsAlert : String :=
  "The \x27Arguments\x27 field contains invalid JSON. Please correct it."

/-- The codec's `buildValidationCriteria`: reads the selector and the rendered fields
and returns the criteria object (`none` models the JavaScript `null`
return), together with the list of alert messages raised (the
operator-visible channel). -/
def buildValidationCriteria (s : DomState) : Option Criteria × List String :=
  let type := s.validationType
  if type = "none" ∨ type = "" then
    (none, [])
  else if type = "exact_match" ∨ type = "contains" then
    (some { type := some type,
            expected := some (JVal.str (jsOrStr (getFieldValue s "expectedOutput") "")) }, [])
  else if type = "function_call" then
    let fn := jsOrStr (getFieldValue s "functionName") ""
    let argsStr := jsOrStr (getFieldValue s "functionArgs") "[]"
    let argsRes : JVal × List String :=
      match Json.parse argsStr with
      | some v => (v, [])
      | none => (JVal.arr [], [invalidArgsAlert])
    let expectedVal := jsOrStr (getFieldValue s "expectedOutput") ""
    let expected : JVal :=
      match Json.parse expectedVal with
      | some v => v
      | none => JVal.str expectedVal
    (some { type := some type, function_name := some fn,
            args := some argsRes.1, expected := some expected }, argsRes.2)
  else
    (some { type := some type }, [])

/-- The codec's `populateValidationFields`: sets the selector from the incoming
criteria (`none`, absent or empty type reset it to `"none"`), re-renders
the fields, then writes the criteria's values into the rendered inputs.
For the `function_call` expected field, a non-string `expected` is passed
through `JSON.stringify`; when `expected` is absent, `JSON.stringify`
returns the JavaScript value `undefined` and the DOM assignment coerces it
to the string `"undefined"`. -/
def populateValidationFields (criteria : Option Criteria) (s0 : DomState) : DomState :=
  let s1 : DomState :=
    match criteria with
    | none => { s0 with validationType := "none" }
    | some c =>
      match c.type with
      | none => { s0 with validationType := "none" }
      | some t => if t = "" then { s0 with validationType := "none" }
                  else { s0 with validationType := t }
  let s2 := handleValidationChange s1
  match criteria with
  | none => s2
  | some c =>
    if c.type = some "exact_match" ∨ c.type = some "contains" then
      setFieldValue s2 "expectedOutput"
        (match c.expected with
         | none => ""
         | some e => if jsTruthy e then jsToDOMString e else "")
    else if c.type = some "function_call" then
      let s3 := setFieldValue s2 "functionName" (jsOrStr c.function_name "")
      let s4 := setFieldValue s3 "functionArgs"
        (Json.stringify (match c.args with
                         | none => JVal.arr []
                         | some a => if jsTruthy a then a else JVal.arr []))
      setFieldValue s4 "expectedOutput"
        (match c.expected with
         | some (JVal.str s) => s
         | some e => Json.stringify e
         | none => "undefined")
    else s2

example :
    buildValidationCriteria
      ⟨"function_call",
        [⟨"functionName", "add_numbers"⟩, ⟨"functionArgs", "[2, 3]"⟩, ⟨"expectedOutput", "5"⟩]⟩ =
    (some { type := some "function_call", function_name := some "add_numbers",
            args := some (JVal.arr [JVal.num 2, JVal.num 3]),
            expected := some (JVal.num 5) }, []) := by rfl

example : (buildValidationCriteria ⟨"none", []⟩).1 = none := by rfl

example :
    getFieldValue
      (populateValidationFields
        (some { type := some "function_call", function_name := some "f",
                args := some (JVal.arr [JVal.num 1]), expected := some (JVal.str "ok") })
        ⟨"none", []⟩) "expectedOutput" = some "ok" := by rfl

/-!
## Round-trip law of the JSON model

`Json.parse` inverts `Json.stringify`.  The proof goes by induction on the
parser's fuel; the statement threads the remaining input `rest` through,
with the only side condition that `rest` must not start with a digit when
it follows a serialized number.
-/

/-- The remaining input after a serialized value must not begin with a
digit (otherwise the digit would be absorbed into a preceding number). -/
def delimOk : List Char → Prop
  | [] => True
  | c :: _ => isDig c = false

theorem expectPfx_append (p rest : List Char) : expectPfx p (p ++ rest) = some rest := by
  induction p with
  | nil => rfl
  | cons c cs ih => simp [expectPfx, ih]

theorem skipWs_cons_of_not_ws {c : Char} (h : isWs c = false) (cs : List Char) :
    skipWs (c :: cs) = c :: cs := by
  simp [skipWs, h]

theorem digitCh_isDig {d : Nat} (h : d < 10) : isDig (digitCh d) = true := by
  interval_cases d <;> decide

theorem digitCh_val {d : Nat} (h : d < 10) : (digitCh d).toNat - 48 = d := by
  interval_cases d <;> decide

/-- A digit character is none of the parser's branch-dispatch characters
and is not whitespace. -/
theorem isDig_char_facts {c : Char} (h : isDig c = true) :
    isWs c = false ∧ c ≠ 'n' ∧ c ≠ 't' ∧ c ≠ 'f' ∧ c ≠ '"' ∧ c ≠ '-' ∧
      c ≠ '[' ∧ c ≠ '\x7b' ∧ c ≠ ']' ∧ c ≠ '\x7d' ∧ c ≠ ',' ∧ c ≠ ':' := by
  refine ⟨?_, ?_⟩
  · cases hw : isWs c with
    | false => rfl
    | true =>
      exfalso
      simp only [isWs, Bool.or_eq_true, decide_eq_true_eq] at hw
      rcases hw with ((h1 | h1) | h1) | h1 <;> (subst h1; exact absurd h (by decide))
  and_intros <;> (intro he; subst he; exact absurd h (by decide))

theorem natCharsAux_digits :
    ∀ fuel n, ∀ c ∈ natCharsAux fuel n, isDig c = true := by
  intro fuel
  induction fuel with
  | zero => intro n c hc; simp [natCharsAux] at hc
  | succ f ih =>
    intro n c hc
    by_cases hn : n < 10
    · simp [natCharsAux, hn] at hc
      subst hc
      exact digitCh_isDig hn
    · simp [natCharsAux, hn] at hc
      rcases hc with hc | hc
      · exact ih (n / 10) c hc
      · subst hc
        exact digitCh_isDig (Nat.mod_lt _ (by omega))

theorem natCharsAux_ne_nil {fuel n : Nat} (h : n < fuel) : natCharsAux fuel n ≠ [] := by
  cases fuel with
  | zero => omega
  | succ f =>
    by_cases hn : n < 10 <;> simp [natCharsAux, hn]

theorem digitsVal_append (xs : List Char) (c : Char) :
    digitsVal (xs ++ [c]) = 10 * digitsVal xs + (c.toNat - 48) := by
  simp [digitsVal, List.foldl_append]

theorem digitsVal_natCharsAux :
    ∀ n fuel, n < fuel → digitsVal (natCharsAux fuel n) = n := by
  intro n
  induction n using Nat.strong_induction_on with
  | _ n ih =>
    intro fuel hf
    cases fuel with
    | zero => omega
    | succ f =>
      by_cases hn : n < 10
      · have := digitCh_val hn
        simp [natCharsAux, hn, digitsVal]
        omega
      · have hlt : n / 10 < n := Nat.div_lt_self (by omega) (by omega)
        simp only [natCharsAux, if_neg hn]
        rw [digitsVal_append, ih (n / 10) hlt f (by omega),
            digitCh_val (Nat.mod_lt _ (by omega))]
        omega

theorem digitsVal_natChars (n : Nat) : digitsVal (natChars n) = n :=
  digitsVal_natCharsAux n (n + 1) (Nat.lt_succ_self n)

theorem natChars_digits {n : Nat} : ∀ c ∈ natChars n, isDig c = true :=
  natCharsAux_digits (n + 1) n

theorem natChars_ne_nil {n : Nat} : natChars n ≠ [] :=
  natCharsAux_ne_nil (Nat.lt_succ_self n)

theorem takeDigits_append :
    ∀ (ds : List Char), (∀ c ∈ ds, isDig c = true) → ∀ rest, delimOk rest →
      takeDigits (ds ++ rest) = (ds, rest) := by
  intro ds
  induction ds with
  | nil =>
    intro _ rest hrest
    cases rest with
    | nil => rfl
    | cons c cs =>
      simp only [delimOk] at hrest
      simp [takeDigits, hrest]
  | cons c cs ih =>
    intro hds rest hrest
    have hc : isDig c = true := hds c (by simp)
    simp [takeDigits, hc, ih (fun x hx => hds x (by simp [hx])) rest hrest]

theorem parseStrChars_escStr :
    ∀ (l rest : List Char), parseStrChars (escStr l ++ '"' :: rest) = some (l, rest) := by
  intro l
  induction l with
  | nil =>
    intro rest
    simp only [escStr, List.nil_append]
    rw [parseStrChars.eq_def]
    simp
  | cons c cs ih =>
    intro rest
    by_cases h1 : c = '"'
    · subst h1
      simp only [escStr, escChar, if_pos rfl, List.cons_append, List.nil_append,
        List.append_assoc]
      rw [parseStrChars.eq_def]
      simp [escAns, ih]
    · by_cases h2 : c = '\\'
      · subst h2
        simp [escStr, escChar]
        rw [parseStrChars.eq_def]
        simp [escAns, ih]
      · simp [escStr, escChar, h1, h2]
        rw [parseStrChars.eq_def]
        simp [h1, h2, ih]

/-- Every serialized value starts with a character that is not whitespace,
not `]`, and not the closing brace. -/
theorem stringifyV_head (v : JVal) :
    ∃ c cs, stringifyV v = c :: cs ∧ isWs c = false ∧ c ≠ ']' ∧ c ≠ '\x7d' := by
  have hdig : ∀ c2 : Char, isDig c2 = true →
      isWs c2 = false ∧ c2 ≠ ']' ∧ c2 ≠ '\x7d' := fun c2 h2 =>
    ⟨(isDig_char_facts h2).1, (isDig_char_facts h2).2.2.2.2.2.2.2.2.1,
     (isDig_char_facts h2).2.2.2.2.2.2.2.2.2.1⟩
  cases v
  case num n =>
    by_cases hn : n < 0
    · refine ⟨'-', natChars n.natAbs, ?_, ?_, ?_, ?_⟩
      · simp [stringifyV, intChars, hn]
      all_goals decide
    · rcases hh : natChars n.toNat with _ | ⟨c, cs⟩
      · exact absurd hh natChars_ne_nil
      · have hc : isDig c = true := natChars_digits c (by rw [hh]; simp)
        refine ⟨c, cs, ?_, hdig c hc⟩
        simp [stringifyV, intChars, hn, hh]
  case bool b => cases b <;> exact ⟨_, _, rfl, by decide⟩
  case arr l => cases l <;> exact ⟨_, _, rfl, by decide⟩
  case obj m => cases m <;> exact ⟨_, _, rfl, by decide⟩
  all_goals exact ⟨_, _, rfl, by decide⟩

theorem stringifyV_len_pos (v : JVal) : 1 ≤ (stringifyV v).length := by
  obtain ⟨c, cs, heq, -⟩ := stringifyV_head v
  simp [heq]

theorem strLit_len (s : String) : 2 ≤ (strLit s).length := by
  simp [strLit]

theorem not_ws_chars {c : Char} (h : isWs c = false) :
    c ≠ ' ' ∧ c ≠ '\t' ∧ c ≠ '\n' ∧ c ≠ '\x0d' := by
  refine ⟨?_, ?_, ?_, ?_⟩ <;> (intro he; subst he; exact absurd h (by decide))

theorem isDig_lbracket : isDig '[' = false := by decide

theorem isDig_lbrace : isDig '\x7b' = false := by decide

/-- Key induction: parsing recovers any serialized value (and any nonempty
serialized element/member list), leaving the remaining input intact. -/
theorem parse_stringify_aux : ∀ fuel : Nat,
    (∀ (v : JVal) (rest : List Char), (stringifyV v).length ≤ fuel → delimOk rest →
      parseVal fuel (stringifyV v ++ rest) = some (v, rest)) ∧
    (∀ (v : JVal) (vs : List JVal) (rest : List Char),
      (stringifyV v).length + (stringifyElems vs).length + 1 ≤ fuel →
      parseElems fuel (stringifyV v ++ (stringifyElems vs ++ ']' :: rest)) =
        some (v :: vs, rest)) ∧
    (∀ (k : String) (v : JVal) (ms : List (String × JVal)) (rest : List Char),
      (strLit k).length + (stringifyV v).length + (stringifyMembers ms).length + 2 ≤ fuel →
      parseMembers fuel
          (strLit k ++ ':' :: (stringifyV v ++ (stringifyMembers ms ++ '\x7d' :: rest))) =
        some ((k, v) :: ms, rest)) := by
  intro fuel
  induction fuel with
  | zero =>
    refine ⟨?_, ?_, ?_⟩
    · intro v rest hlen _
      have := stringifyV_len_pos v
      omega
    · intro v vs rest hlen
      omega
    · intro k v ms rest hlen
      omega
  | succ fuel ih =>
    obtain ⟨ihV, ihE, ihM⟩ := ih
    refine ⟨?_, ?_, ?_⟩
    · intro v rest hlen hrest
      cases v with
      | null =>
        simp only [stringifyV, List.cons_append, List.nil_append]
        rw [parseVal.eq_def]
        simp [skipWs, isWs, expectPfx]
      | bool b =>
        cases b <;>
          (simp only [stringifyV, List.cons_append, List.nil_append]
           rw [parseVal.eq_def]
           simp [skipWs, isWs, expectPfx])
      | num n =>
        by_cases hn : n < 0
        · have htd := takeDigits_append (natChars n.natAbs) natChars_digits rest hrest
          simp only [stringifyV, intChars, if_pos hn, List.cons_append]
          rw [parseVal.eq_def]
          simp [skipWs, isWs, htd, natChars_ne_nil, digitsVal_natChars]
          rw [abs_of_neg hn, neg_neg]
        · rcases hh : natChars n.toNat with _ | ⟨c, cs⟩
          · exact absurd hh natChars_ne_nil
          · have hc : isDig c = true := natChars_digits c (by rw [hh]; simp)
            have hf := isDig_char_facts hc
            have htd : takeDigits (c :: (cs ++ rest)) = (c :: cs, rest) := by
              have := takeDigits_append (natChars n.toNat) natChars_digits rest hrest
              rw [hh] at this
              simpa using this
            have hdv : digitsVal (c :: cs) = n.toNat := by
              rw [← hh]
              exact digitsVal_natChars n.toNat
            simp only [stringifyV, intChars, if_neg hn, hh, List.cons_append]
            rw [parseVal.eq_def]
            simp [skipWs_cons_of_not_ws hf.1, hf.2.1, hf.2.2.1, hf.2.2.2.1, hf.2.2.2.2.1,
              hf.2.2.2.2.2.1, hc, htd, hdv]
            omega
      | str s =>
        have hps := parseStrChars_escStr s.data rest
        simp only [stringifyV, strLit, List.cons_append, List.nil_append, List.append_assoc]
        rw [parseVal.eq_def]
        simp [skipWs, isWs, hps]
      | arr l =>
        cases l with
        | nil =>
          simp only [stringifyV, List.cons_append, List.nil_append]
          rw [parseVal.eq_def]
          simp [skipWs, isWs, isDig_lbracket]
        | cons v vs =>
          obtain ⟨c, cs, hveq, hcw, hcrb, hcob⟩ := stringifyV_head v
          obtain ⟨hw1, hw2, hw3, hw4⟩ := not_ws_chars hcw
          have hlen2 : (stringifyV v).length + (stringifyElems vs).length + 1 ≤ fuel := by
            simp only [stringifyV] at hlen
            simp [List.length_append] at hlen
            omega
          have hE := ihE v vs rest hlen2
          simp only [hveq, List.cons_append, List.append_assoc] at hE
          simp only [stringifyV, hveq, List.cons_append, List.nil_append, List.append_assoc]
          rw [parseVal.eq_def]
          simp [skipWs, isWs, isDig_lbracket, hw1, hw2, hw3, hw4, hcrb, hE]
      | obj m =>
        cases m with
        | nil =>
          simp only [stringifyV, List.cons_append, List.nil_append]
          rw [parseVal.eq_def]
          simp [skipWs, isWs, isDig_lbrace]
        | cons m2 ms =>
          have hlen2 : (strLit m2.1).length + (stringifyV m2.2).length +
              (stringifyMembers ms).length + 2 ≤ fuel := by
            simp only [stringifyV] at hlen
            simp [List.length_append, strLit] at hlen ⊢
            omega
          have hM := ihM m2.1 m2.2 ms rest hlen2
          simp only [strLit, List.cons_append, List.nil_append, List.append_assoc] at hM
          simp only [stringifyV, strLit, List.cons_append, List.nil_append, List.append_assoc]
          rw [parseVal.eq_def]
          simp [skipWs, isWs, isDig_lbrace, hM, Prod.mk.eta]
    · intro v vs rest hlen
      have hvp := stringifyV_len_pos v
      cases vs with
      | nil =>
        have hV := ihV v (']' :: rest) (by simp [stringifyElems] at hlen; omega)
          (by simp only [delimOk]; decide)
        rw [parseElems.eq_def]
        simp only [stringifyElems, List.nil_append]
        simp [hV, skipWs, isWs]
      | cons w ws =>
        have hV := ihV v (',' :: (stringifyV w ++ (stringifyElems ws ++ ']' :: rest)))
          (by simp [stringifyElems, List.length_append] at hlen; omega)
          (by simp only [delimOk]; decide)
        have hE2 := ihE w ws rest
          (by simp [stringifyElems, List.length_append] at hlen ⊢; omega)
        rw [parseElems.eq_def]
        simp only [stringifyElems, List.cons_append, List.append_assoc]
        simp only [stringifyElems, List.cons_append, List.append_assoc] at hV
        simp [hV, skipWs, isWs, hE2]
    · intro k v ms rest hlen
      have hvp := stringifyV_len_pos v
      have hkp := strLit_len k
      have hps := parseStrChars_escStr k.data
        (':' :: (stringifyV v ++ (stringifyMembers ms ++ '\x7d' :: rest)))
      have hdel : delimOk (stringifyMembers ms ++ '\x7d' :: rest) := by
        cases ms with
        | nil => simp only [stringifyMembers, List.nil_append, delimOk]; decide
        | cons m2 ms2 => simp only [stringifyMembers, List.cons_append, delimOk]; decide
      have hV := ihV v (stringifyMembers ms ++ '\x7d' :: rest) (by omega) hdel
      rw [parseMembers.eq_def]
      simp only [strLit, List.cons_append, List.nil_append, List.append_assoc]
      simp only [strLit, List.cons_append, List.nil_append, List.append_assoc] at hps
      cases ms with
      | nil =>
        simp only [stringifyMembers, List.nil_append] at hps hV ⊢
        simp [skipWs, isWs, hps, hV]
      | cons m2 ms2 =>
        have hM2 := ihM m2.1 m2.2 ms2 rest (by
          have h2p := strLit_len m2.1
          have h2v := stringifyV_len_pos m2.2
          simp [stringifyMembers, List.length_append] at hlen ⊢
          omega)
        simp only [stringifyMembers, List.cons_append, List.nil_append,
          List.append_assoc] at hps hV hM2 ⊢
        simp [skipWs, isWs, hps, hV, hM2, Prod.mk.eta]

/-- The JSON model satisfies the parse-of-stringify round-trip law. -/
theorem json_parse_stringify (v : JVal) : Json.parse (Json.stringify v) = some v := by
  have h := (parse_stringify_aux ((stringifyV v).length + 1)).1 v [] (by omega) trivial
  simp only [List.append_nil] at h
  simp [Json.parse, Json.stringify, h, skipWs]

/-!
## Codec lemmas
-/

theorem jsOrStr_self (s : String) : jsOrStr (some s) "" = s := by
  by_cases h : s = "" <;> simp [jsOrStr, h]

theorem jsOrStr_some_ne {s : String} (h : s ≠ "") (d : String) : jsOrStr (some s) d = s := by
  simp [jsOrStr, h]

theorem stringify_ne_empty (v : JVal) : Json.stringify v ≠ "" := by
  obtain ⟨c, cs, heq, -, -, -⟩ := stringifyV_head v
  intro hcon
  have hd := congrArg String.data hcon
  simp [Json.stringify] at hd
  rw [heq] at hd
  exact absurd hd (by simp)

/-- The form state `populate` produces for an `exact_match`/`contains`
criteria: the selector holds the type and the single expected-output field
holds the criteria's expected string. -/
theorem populate_expected_fields (c : Criteria) (s : DomState) (t e : String)
    (ht : c.type = some t) (htt : t = "exact_match" ∨ t = "contains")
    (hexp : c.expected = some (JVal.str e)) :
    populateValidationFields (some c) s = ⟨t, [⟨"expectedOutput", e⟩]⟩ := by
  rcases htt with rfl | rfl <;> by_cases he : e = "" <;>
    simp [populateValidationFields, ht, hexp, handleValidationChange, expectedTemplate,
      setFieldValue, jsTruthy, jsToDOMString, he]

/-- Building from an `exact_match`/`contains` form state returns the
expected string verbatim and raises no alert. -/
theorem build_expected_fields (t e : String) (htt : t = "exact_match" ∨ t = "contains") :
    buildValidationCriteria ⟨t, [⟨"expectedOutput", e⟩]⟩ =
      (some { type := some t, expected := some (JVal.str e) }, []) := by
  rcases htt with rfl | rfl <;>
    simp [buildValidationCriteria, getFieldValue, List.find?, jsOrStr_self]

/-- The form state `populate` produces for a `function_call` criteria. -/
theorem populate_function_call_fields (c : Criteria) (s : DomState) (fn : String)
    (a e : JVal) (hty : c.type = some "function_call") (hfn : c.function_name = some fn)
    (hargs : c.args = some a) (hexp : c.expected = some e) (ha : jsTruthy a = true)
    (E : String)
    (hE : e = JVal.str E ∨ ((∀ s2, e ≠ JVal.str s2) ∧ E = Json.stringify e)) :
    populateValidationFields (some c) s =
      ⟨"function_call",
        [⟨"functionName", fn⟩, ⟨"functionArgs", Json.stringify a⟩,
         ⟨"expectedOutput", E⟩]⟩ := by
  rcases hE with rfl | ⟨hne, rfl⟩
  · simp [populateValidationFields, hty, hfn, hargs, hexp, handleValidationChange,
      setFieldValue, functionCallTemplate, ha, jsOrStr_self]
  · cases e <;>
      first
        | exact absurd rfl (hne _)
        | simp [populateValidationFields, hty, hfn, hargs, hexp, handleValidationChange,
            setFieldValue, functionCallTemplate, ha, jsOrStr_self]

/-- Building from a `function_call` form state: the function name is read
verbatim, the arguments field is parsed as JSON, and the expected field is
parsed as JSON with fallback to the raw string. -/
theorem build_function_call_fields (fn A E : String) (hA : A ≠ "")
    (aV : JVal) (hPA : Json.parse A = some aV) (eV : JVal)
    (hPE : Json.parse E = some eV ∨ (Json.parse E = none ∧ eV = JVal.str E)) :
    buildValidationCriteria
        ⟨"function_call", [⟨"functionName", fn⟩, ⟨"functionArgs", A⟩, ⟨"expectedOutput", E⟩]⟩ =
      (some { type := some "function_call", function_name := some fn,
              args := some aV, expected := some eV }, []) := by
  rcases hPE with hPE | ⟨hPE, rfl⟩ <;>
    simp [buildValidationCriteria, getFieldValue, List.find?, jsOrStr_self,
      jsOrStr_some_ne hA, hPA, hPE]

/-- A valid Criteria object in the sense of the data model: `exact_match`
and `contains` carry only a string `expected`; `function_call` carries a
string `function_name`, an array `args`, and a JSON `expected` value. -/
def ValidCriteria (c : Criteria) : Prop :=
  ((c.type = some "exact_match" ∨ c.type = some "contains") ∧
    (∃ s, c.expected = some (JVal.str s)) ∧ c.function_name = none ∧ c.args = none) ∨
  (c.type = some "function_call" ∧ (∃ fn, c.function_name = some fn) ∧
    (∃ l, c.args = some (JVal.arr l)) ∧ (∃ e, c.expected = some e))

/-- Agreement of the expected value up to the string/JSON representation
ambiguity: the rebuilt value equals the original, or the original was a
string whose JSON parse yields the rebuilt value. -/
def ExpectedEquiv (orig rebuilt : Option JVal) : Prop :=
  rebuilt = orig ∨
    ∃ s b, orig = some (JVal.str s) ∧ Json.parse s = some b ∧ rebuilt = some b

/-!
## Claim C1
-/

/-- C1: for every valid Criteria object `c` with type `exact_match`,
`contains`, or `function_call`, running `populate(c)` and then `build()`
yields a criteria object reproducing `c`'s observable field values
(`function_name`, `args`, `expected`), the expected value up to the
string/JSON representation ambiguity. -/
theorem build_populate_round_trip (c : Criteria) (s : DomState) (h : ValidCriteria c) :
    ∃ c2 : Criteria,
      (buildValidationCriteria (populateValidationFields (some c) s)).1 = some c2 ∧
      c2.type = c.type ∧ c2.function_name = c.function_name ∧ c2.args = c.args ∧
      ExpectedEquiv c.expected c2.expected := by
  rcases h with ⟨hty, ⟨e, hexp⟩, hfn, hargs⟩ | ⟨hty, ⟨fn, hfn⟩, ⟨l, hargs⟩, ⟨e0, hexp⟩⟩
  · rcases hty with hty | hty <;>
    · rw [populate_expected_fields c s _ e hty (by simp) hexp,
        build_expected_fields _ e (by simp)]
      exact ⟨_, rfl, hty.symm, hfn.symm, hargs.symm, Or.inl hexp.symm⟩
  · by_cases hstr : ∃ es, e0 = JVal.str es
    · obtain ⟨es, rfl⟩ := hstr
      rw [populate_function_call_fields c s fn (JVal.arr l) (JVal.str es) hty hfn hargs
        hexp rfl es (Or.inl rfl)]
      cases hp : Json.parse es with
      | some b =>
        rw [build_function_call_fields fn _ es (stringify_ne_empty _) (JVal.arr l)
          (json_parse_stringify _) b (Or.inl hp)]
        exact ⟨_, rfl, hty.symm, hfn.symm, hargs.symm, Or.inr ⟨es, b, hexp, hp, rfl⟩⟩
      | none =>
        rw [build_function_call_fields fn _ es (stringify_ne_empty _) (JVal.arr l)
          (json_parse_stringify _) (JVal.str es) (Or.inr ⟨hp, rfl⟩)]
        exact ⟨_, rfl, hty.symm, hfn.symm, hargs.symm, Or.inl hexp.symm⟩
    · have hne : ∀ s2, e0 ≠ JVal.str s2 := fun s2 he => hstr ⟨s2, he⟩
      rw [populate_function_call_fields c s fn (JVal.arr l) e0 hty hfn hargs hexp rfl
        (Json.stringify e0) (Or.inr ⟨hne, rfl⟩)]
      rw [build_function_call_fields fn _ _ (stringify_ne_empty _) (JVal.arr l)
        (json_parse_stringify _) e0 (Or.inl (json_parse_stringify e0))]
      exact ⟨_, rfl, hty.symm, hfn.symm, hargs.symm, Or.inl hexp.symm⟩

/-- A concrete valid `function_call` criteria used to witness C1. -/
def c1Criteria : Criteria :=
  { type := some "function_call", function_name := some "f",
    args := some (JVal.arr [JVal.num 1]), expected := some (JVal.str "ok") }

/-- Witness for C1: the round trip at a concrete valid criteria object. -/
theorem build_populate_round_trip_witness :
    ∃ c2 : Criteria,
      (buildValidationCriteria (populateValidationFields (some c1Criteria) ⟨"none", []⟩)).1 =
        some c2 ∧
      c2.type = c1Criteria.type ∧ c2.function_name = c1Criteria.function_name ∧
      c2.args = c1Criteria.args ∧ ExpectedEquiv c1Criteria.expected c2.expected :=
  build_populate_round_trip c1Criteria ⟨"none", []⟩
    (Or.inr ⟨rfl, ⟨"f", rfl⟩, ⟨[JVal.num 1], rfl⟩, ⟨JVal.str "ok", rfl⟩⟩)

/-!
## Claim C2
-/

/-- C2: when the selected type is `function_call` and the arguments field
holds text that is not valid JSON, build raises the user-facing alert,
falls back to an empty args sequence, and still returns a criteria object
rather than null. -/
theorem build_invalid_args_alert (s : DomState) (v : String)
    (hty : s.validationType = "function_call")
    (hv : getFieldValue s "functionArgs" = some v) (hne : v ≠ "")
    (hp : Json.parse v = none) :
    ∃ c : Criteria, (buildValidationCriteria s).1 = some c ∧
      c.args = some (JVal.arr []) ∧
      (buildValidationCriteria s).2 = [invalidArgsAlert] := by
  simp [buildValidationCriteria, hty, hv, jsOrStr_some_ne hne, hp]

/-- Witness for C2 at the spec's scenario C input `not json`. -/
theorem build_invalid_args_alert_witness :
    ∃ c : Criteria,
      (buildValidationCriteria
          ⟨"function_call",
            [⟨"functionName", ""⟩, ⟨"functionArgs", "not json"⟩,
             ⟨"expectedOutput", ""⟩]⟩).1 = some c ∧
      c.args = some (JVal.arr []) ∧
      (buildValidationCriteria
          ⟨"function_call",
            [⟨"functionName", ""⟩, ⟨"functionArgs", "not json"⟩,
             ⟨"expectedOutput", ""⟩]⟩).2 = [invalidArgsAlert] :=
  build_invalid_args_alert _ "not json" rfl rfl (by decide) rfl

/-!
## Claim C3
-/

/-- C3: build returns null exactly when the selector is `none` or empty,
and a returned criteria object is never typed `"none"`. -/
theorem build_none_iff (s : DomState) :
    ((buildValidationCriteria s).1 = none ↔
      (s.validationType = "none" ∨ s.validationType = "")) ∧
    ∀ c : Criteria, (buildValidationCriteria s).1 = some c → c.type ≠ some "none" := by
  by_cases h : s.validationType = "none" ∨ s.validationType = ""
  · simp [buildValidationCriteria, h]
  · have hn : s.validationType ≠ "none" := fun hh => h (Or.inl hh)
    simp only [buildValidationCriteria, h]
    split_ifs <;> simp_all

/-- Witness for C3 at concrete selector values. -/
theorem build_none_iff_witness :
    (((buildValidationCriteria ⟨"none", []⟩).1 = none) ↔
      ("none" = "none" ∨ "none" = "")) ∧
    ({ type := some "exact_match", expected := some (JVal.str "") } : Criteria).type ≠
      some "none" :=
  ⟨(build_none_iff ⟨"none", []⟩).1, (build_none_iff ⟨"exact_match", []⟩).2 _ (by rfl)⟩

/-!
## Claim C5
-/

/-- C5: after a render the field set depends only on the type just
rendered (never on previous container contents), and rendering
`function_call` then `exact_match` leaves exactly the one expected-output
field, with no function-name or arguments fields. -/
theorem render_field_set_matches_type (s t : DomState)
    (h : s.validationType = t.validationType) :
    (handleValidationChange s).fields = (handleValidationChange t).fields ∧
    (handleValidationChange
        { handleValidationChange { s with validationType := "function_call" } with
          validationType := "exact_match" }).fields.map FormField.id =
      ["expectedOutput"] := by
  constructor
  · simp [handleValidationChange, h]
  · simp [handleValidationChange, expectedTemplate]

/-- Witness for C5: two states sharing a selector but with different stale
container contents. -/
theorem render_field_set_matches_type_witness :
    (handleValidationChange ⟨"function_call", [⟨"expectedOutput", "stale"⟩]⟩).fields =
      (handleValidationChange ⟨"function_call", []⟩).fields ∧
    (handleValidationChange
        { handleValidationChange
            { (⟨"function_call", [⟨"expectedOutput", "stale"⟩]⟩ : DomState) with
              validationType := "function_call" } with
          validationType := "exact_match" }).fields.map FormField.id =
      ["expectedOutput"] :=
  render_field_set_matches_type ⟨"function_call", [⟨"expectedOutput", "stale"⟩]⟩
    ⟨"function_call", []⟩ rfl

/-!
## Claim C8
-/

/-- C8: the Field Renderer is idempotent — rendering twice with the same
selected type yields the same container as rendering once — and a rendered
container never holds duplicate field ids. -/
theorem render_idempotent (s : DomState) :
    handleValidationChange (handleValidationChange s) = handleValidationChange s ∧
    ((handleValidationChange s).fields.map FormField.id).Nodup := by
  by_cases h1 : s.validationType = "exact_match" ∨ s.validationType = "contains"
  · simp [handleValidationChange, h1, expectedTemplate]
  · by_cases h2 : s.validationType = "function_call"
    · simp [handleValidationChange, h1, h2, functionCallTemplate]
    · simp [handleValidationChange, h1, h2]

/-!
## Claim C9
-/

/-- C9: `populate(null)` resets the selector to `none`, writes no field
values (the container is left empty), and a subsequent `build()` returns
null with no alert. -/
theorem populate_null_build_null (s : DomState) :
    populateValidationFields none s = ⟨"none", []⟩ ∧
    buildValidationCriteria (populateValidationFields none s) = (none, []) := by
  constructor <;>
    simp [populateValidationFields, handleValidationChange, buildValidationCriteria]

/-!
## Claim C10
-/

/-- C10: populating a `function_call` criteria that lacks an `expected`
value writes the literal string `"undefined"` into the expected-output
field (`JSON.stringify(undefined)` is `undefined`, which the DOM value
assignment coerces to that string). -/
theorem populate_missing_expected_undefined (s : DomState) (c : Criteria)
    (hty : c.type = some "function_call") (hexp : c.expected = none) :
    getFieldValue (populateValidationFields (some c) s) "expectedOutput" =
      some "undefined" := by
  simp [populateValidationFields, hty, hexp, handleValidationChange, setFieldValue,
    functionCallTemplate, getFieldValue, List.find?]

/-- Witness for C10 at a concrete criteria with no expected value. -/
theorem populate_missing_expected_undefined_witness :
    getFieldValue
        (populateValidationFields (some { type := some "function_call" }) ⟨"none", []⟩)
        "expectedOutput" = some "undefined" :=
  populate_missing_expected_undefined ⟨"none", []⟩ { type := some "function_call" } rfl rfl

/-!
## Claim C4
-/

/-- C4 is refuted by the code: with the selector holding a value outside
the enumerated set (here `"custom"`), build returns a criteria object
whose `type` field is that unrecognized value, so a produced object's type
is not always one of the four enumerated values. -/
theorem build_type_counterexample :
    (buildValidationCriteria ⟨"custom", []⟩).1 = some { type := some "custom" } ∧
    some "custom" ≠ some "none" ∧ some "custom" ≠ some "exact_match" ∧
    some "custom" ≠ some "contains" ∧ some "custom" ≠ some "function_call" :=
  ⟨rfl, by decide, by decide, by decide, by decide⟩

/-- C4 (amended): every criteria object produced by build carries the
selector value as its type (never `"none"`/empty); a selector value
outside the enumerated set yields an object with no recognized fields
(no expected, function_name, or args), and the Renderer installs no fields
for it. -/
theorem build_type_amended (s : DomState) :
    ∀ c : Criteria, (buildValidationCriteria s).1 = some c →
      c.type = some s.validationType ∧
      (s.validationType ≠ "exact_match" → s.validationType ≠ "contains" →
        s.validationType ≠ "function_call" →
        c.expected = none ∧ c.function_name = none ∧ c.args = none ∧
        (handleValidationChange s).fields = []) := by
  intro c hc
  simp only [buildValidationCriteria] at hc
  split_ifs at hc with h1 h2 h3
  · simp at hc
    subst hc
    refine ⟨rfl, fun h4 h5 _ => ?_⟩
    rcases h2 with h2 | h2
    · exact absurd h2 h4
    · exact absurd h2 h5
  · simp at hc
    subst hc
    exact ⟨rfl, fun _ _ h6 => absurd h3 h6⟩
  · simp at hc
    subst hc
    exact ⟨rfl, fun _ _ _ => ⟨rfl, rfl, rfl, by simp [handleValidationChange, h2, h3]⟩⟩

/-- Witness for C4 (amended) at the unrecognized selector `"custom"`. -/
theorem build_type_amended_witness :
    ({ type := some "custom" } : Criteria).type = some "custom" ∧
    ("custom" ≠ "exact_match" → "custom" ≠ "contains" → "custom" ≠ "function_call" →
      ({ type := some "custom" } : Criteria).expected = none ∧
      ({ type := some "custom" } : Criteria).function_name = none ∧
      ({ type := some "custom" } : Criteria).args = none ∧
      (handleValidationChange ⟨"custom", []⟩).fields = []) :=
  build_type_amended ⟨"custom", []⟩ { type := some "custom" } rfl

/-!
## Claim C6
-/

/-- C6: for a `function_call` build, the function name is read verbatim,
the arguments field is parsed as JSON, and the expected field is parsed as
JSON with a silent fallback to the raw string; scenario B returns exactly
the criteria of the spec with no alert. -/
theorem build_function_call_scenario :
    buildValidationCriteria
        ⟨"function_call",
          [⟨"functionName", "add_numbers"⟩, ⟨"functionArgs", "[2, 3]"⟩,
           ⟨"expectedOutput", "5"⟩]⟩ =
      (some { type := some "function_call", function_name := some "add_numbers",
              args := some (JVal.arr [JVal.num 2, JVal.num 3]),
              expected := some (JVal.num 5) }, []) ∧
    ∀ (s : DomState) (v : String), s.validationType = "function_call" →
      getFieldValue s "expectedOutput" = some v → Json.parse v = none →
      ∃ c : Criteria, (buildValidationCriteria s).1 = some c ∧
        c.expected = some (JVal.str v) := by
  constructor
  · rfl
  · intro s v hty hv hp
    simp [buildValidationCriteria, hty, hv, jsOrStr_self, hp]

/-- Witness for C6's fallback clause at the plain-string expected value
`hello`, which is not valid JSON. -/
theorem build_function_call_scenario_witness :
    ∃ c : Criteria,
      (buildValidationCriteria ⟨"function_call", [⟨"expectedOutput", "hello"⟩]⟩).1 =
        some c ∧
      c.expected = some (JVal.str "hello") :=
  build_function_call_scenario.2 ⟨"function_call", [⟨"expectedOutput", "hello"⟩]⟩
    "hello" rfl rfl rfl

/-!
## Claim C7
-/

/-- C7: for a `function_call` criteria, populate writes `expected` into
the expected field verbatim when it is already a string and writes its
JSON serialization otherwise; scenario D's displayed value is the literal
`ok`. -/
theorem populate_expected_string_verbatim :
    (∀ (s : DomState) (c : Criteria) (str2 : String),
      c.type = some "function_call" → c.expected = some (JVal.str str2) →
      getFieldValue (populateValidationFields (some c) s) "expectedOutput" = some str2) ∧
    (∀ (s : DomState) (c : Criteria) (e : JVal),
      c.type = some "function_call" → c.expected = some e → (∀ s2, e ≠ JVal.str s2) →
      getFieldValue (populateValidationFields (some c) s) "expectedOutput" =
        some (Json.stringify e)) ∧
    getFieldValue
        (populateValidationFields
          (some { type := some "function_call", function_name := some "f",
                  args := some (JVal.arr [JVal.num 1]),
                  expected := some (JVal.str "ok") })
          ⟨"none", []⟩) "expectedOutput" = some "ok" := by
  refine ⟨?_, ?_, rfl⟩
  · intro s c str2 hty hexp
    simp [populateValidationFields, hty, hexp, handleValidationChange, setFieldValue,
      functionCallTemplate, getFieldValue, List.find?]
  · intro s c e hty hexp hne
    cases e <;>
      first
        | exact absurd rfl (hne _)
        | simp [populateValidationFields, hty, hexp, handleValidationChange, setFieldValue,
            functionCallTemplate, getFieldValue, List.find?]

/-- Witness for C7's verbatim clause at scenario D's criteria. -/
theorem populate_expected_string_verbatim_witness :
    getFieldValue
        (populateValidationFields
          (some { type := some "function_call", function_name := some "g",
                  args := some (JVal.arr []), expected := some (JVal.str "ok") })
          ⟨"none", []⟩) "expectedOutput" = some "ok" :=
  populate_expected_string_verbatim.1 ⟨"none", []⟩
    { type := some "function_call", function_name := some "g",
      args := some (JVal.arr []), expected := some (JVal.str "ok") } "ok" rfl rfl
